import Mathlib

/-!
# vsshl: a shallow embedding of `src/main.c` and its verified properties

The C program is a read / split / execute loop.  Its functions are embedded
as Lean functions that keep the names of the source:

* text (a C string, a line, the bytes of standard input) is `List Char`;
* a C `int` is its 32-bit two's-complement pattern, a natural number below
  `2^32` of which the patterns from `2^31` on are the negative values;
  `int_add` wraps, `int_lt` compares as signed;
* an allocation request whose size is a negative `int` (a size above
  `PTRDIFF_MAX` once converted to `size_t`) fails and the function takes its
  `exit(EXIT_FAILURE)` branch; every other request is taken to succeed;
* a heap block is modelled by its size: every store into `buffer` or
  `tokens` is logged with the number of cells the block holds at that
  moment, and a store into `tokens` at an index outside the block is
  undefined behaviour: the run stops there with the `fault` flag set and has
  no result;
* everything the operating system decides (the results of `chdir`, `fork`,
  `execvp`, `waitpid`) comes from an oracle indexed by the number of system
  calls made so far, and every effect of the shell is appended to a trace;
* loops whose number of iterations is not bounded by the input get a fuel
  argument; running out of fuel is the outcome `hang`.
-/

namespace Vsshl

/-! ## Text and constants -/

/-- A C string: the characters before the terminating NUL. -/
abbrev CStr := List Char

/-- `#define VSSHL_RL_BUFSIZE 1024` -/
def VSSHL_RL_BUFSIZE : Nat := 1024

/-- `#define VSSHL_TOK_BUFSIZE 64` -/
def VSSHL_TOK_BUFSIZE : Nat := 64

/-- `#define VSSHL_TOK_DELIM " \t\r\n\a"`: space, tab, carriage return,
newline and bell (character 7). -/
def VSSHL_TOK_DELIM : CStr := [' ', '\t', '\r', '\n', Char.ofNat 7]

/-- The pattern of `a + b` in a C `int`. -/
def int_add (a b : Nat) : Nat := (a + b) % 4294967296

/-- The comparison `a < b` of two C `int`s given by their patterns. -/
def int_lt (a b : Nat) : Bool :=
  decide ((a + 2147483648) % 4294967296 < (b + 2147483648) % 4294967296)

/-- Whether a pattern is a negative C `int`. -/
def int_negative (a : Nat) : Bool := decide (2147483648 ≤ a % 4294967296)

/-- The data model of the platform, which fixes `sizeof(char*)`: 4 bytes
(ILP32) or 8 bytes (LP64). -/
inductive PtrSize
  | ilp32
  | lp64
deriving DecidableEq, Repr

/-- `sizeof(char*)` in bytes. -/
def PtrSize.bytes : PtrSize → Nat
  | .ilp32 => 4
  | .lp64 => 8

instance ptr_size_four : OfNat PtrSize 4 := ⟨.ilp32⟩

instance ptr_size_eight : OfNat PtrSize 8 := ⟨.lp64⟩

/-- Membership of a character in a delimiter string, as `strtok` tests it. -/
def is_delim (delim : CStr) (c : Char) : Bool := delim.contains c

/-- One store into a heap array: the index written and the number of cells
the array had been allocated when the store happened. -/
structure Write where
  index : Nat
  cells : Nat
deriving DecidableEq, Repr

/-- A store is inside its block when the index is below the block size. -/
def Write.in_bounds (x : Write) : Bool := decide (x.index < x.cells)

/-! ## The tokenizer: `strtok` and `vsshl_split_line` -/

/-- The C library function `strtok`, on the text its saved pointer points at.
It skips leading delimiters; at the end of the string it returns `NULL`
(`none`); otherwise the token runs up to the next delimiter, which is
overwritten by NUL, and the saved pointer is set just after it (or at the end
of the string when no delimiter follows).  The result is the token and the
text at the new saved pointer. -/
def strtok (delim : CStr) (s : CStr) : Option (CStr × CStr) :=
  match s.dropWhile (is_delim delim) with
  | [] => none
  | c :: cs =>
    some ((c :: cs).takeWhile (fun x => !is_delim delim x),
          ((c :: cs).dropWhile (fun x => !is_delim delim x)).tail)

/-- The local state of `vsshl_split_line`: the `int` variables `bufsize` and
`position`, the size in bytes of the block `tokens` points to, the slots of
that block stored so far (`none` is the `NULL` pointer), the log of stores,
and whether a store has left the block. -/
structure TokArray where
  bufsize : Nat
  position : Nat
  bytes : Nat
  tokens : List (Option CStr)
  writes : List Write
  fault : Bool
deriving DecidableEq, Repr

/-- The statement `tokens[position] = v`.  The block of `bytes` bytes holds
`bytes / sizeof(char*)` pointer slots.  A store at an index below that
number fills the slot (stores happen at consecutive indices from 0, so the
slot list grows at its end); a store at any other index is outside the
block: it is logged, nothing is kept of it, and `fault` is set. -/
def TokArray.store (psz : PtrSize) (st : TokArray) (v : Option CStr) : TokArray :=
  if st.position < st.bytes / psz.bytes then
    { st with tokens := st.tokens ++ [v],
              writes := st.writes ++ [⟨st.position, st.bytes / psz.bytes⟩] }
  else
    { st with writes := st.writes ++ [⟨st.position, st.bytes / psz.bytes⟩],
              fault := true }

/-- The statement `if (position > bufsize) { bufsize += VSSHL_TOK_BUFSIZE;
tokens = realloc(tokens, sizeof(char*) * bufsize); }`.  It is reached only
while no store has left the block, so `realloc` finds the heap intact and
keeps the slots stored so far. -/
def TokArray.grow (psz : PtrSize) (st : TokArray) : TokArray :=
  if int_lt st.bufsize st.position then
    { st with bufsize := int_add st.bufsize VSSHL_TOK_BUFSIZE,
              bytes := psz.bytes * int_add st.bufsize VSSHL_TOK_BUFSIZE }
  else st

/-- The loop `while (token != NULL) { ... token = strtok(NULL, DELIM); }` of
`vsshl_split_line`; the second argument is the last result of `strtok`.  The
run stops at the first store outside the block. -/
def split_loop (psz : PtrSize) : Nat → Option (CStr × CStr) → TokArray → Option TokArray
  | _, none, st => some st
  | 0, some _, _ => none
  | fuel + 1, some (token, saved), st =>
    let st := st.store psz (some token)
    if st.fault then some st
    else
      let st := { st with position := int_add st.position 1 }
      let st := st.grow psz
      split_loop psz fuel (strtok VSSHL_TOK_DELIM saved) st

/-- The state after `char **tokens = malloc(sizeof(char) * bufsize)` with
`bufsize = VSSHL_TOK_BUFSIZE` and `position = 0`: the block has
`1 * 64` bytes. -/
def split_init : TokArray :=
  { bufsize := VSSHL_TOK_BUFSIZE, position := 0, bytes := 1 * VSSHL_TOK_BUFSIZE,
    tokens := [], writes := [], fault := false }

/-- The function `vsshl_split_line`: the state in which the run ends, either
after the store `tokens[position] = NULL` or at the first store outside the
block (`fault`).  Every `strtok` call consumes at least one character, so
`line.length + 1` iterations always suffice (`split_loop_run`). -/
def vsshl_split_line (psz : PtrSize) (line : CStr) : Option TokArray :=
  (split_loop psz (line.length + 1) (strtok VSSHL_TOK_DELIM line) split_init).map
    (fun st => if st.fault then st else st.store psz none)

/-- The argument list a `NULL`-terminated array denotes: the entries before
the first `NULL`. -/
def c_args : List (Option CStr) → List CStr
  | [] => []
  | none :: _ => []
  | some a :: rest => a :: c_args rest

/-- The argument list returned by `vsshl_split_line`; there is none when a
store has left the block. -/
def split_args (psz : PtrSize) (line : CStr) : Option (List CStr) :=
  (vsshl_split_line psz line).bind
    (fun st => if st.fault then none else some (c_args st.tokens))

/-- The maximal runs of non-delimiter characters of a line, from left to
right: the line is cut at every delimiter and the empty pieces are dropped. -/
def maximal_runs (line : CStr) : List CStr :=
  (line.splitOnP (is_delim VSSHL_TOK_DELIM)).filter (fun t => !t.isEmpty)

/-- The tokens joined with a single space. -/
def join_space (toks : List CStr) : CStr := List.intercalate [' '] toks

/-! ## The line reader: `vsshl_read_line` -/

/-- A NUL-terminated character buffer read as a C string: the characters
before the first NUL. -/
def c_str (buffer : List Char) : CStr := buffer.takeWhile (fun c => c != '\x00')

/-- The local state of `vsshl_read_line`: the `int` variables `bufsize` and
`position`, the characters stored in `buffer` so far, the log of stores, and
whether `realloc` has failed (the function then prints
`vsshl: allocation error` and calls `exit(EXIT_FAILURE)`).  The block behind
`buffer` holds `bufsize` characters: it comes from
`malloc(sizeof(char) * bufsize)` and `realloc(buffer, bufsize)`. -/
structure LineBuf where
  bufsize : Nat
  position : Nat
  buffer : List Char
  writes : List Write
  failed : Bool
deriving DecidableEq, Repr

/-- The statement `buffer[position] = c`.  Stores happen at consecutive
indices from 0, so the buffer grows at its end. -/
def LineBuf.store (b : LineBuf) (c : Char) : LineBuf :=
  { b with buffer := b.buffer ++ [c], writes := b.writes ++ [⟨b.position, b.bufsize⟩] }

/-- The statement `if (position >= bufsize) { bufsize += VSSHL_RL_BUFSIZE;
buffer = realloc(buffer, bufsize); if (!buffer) ... }`.  The addition is
`int` addition; when it wraps to a negative value the request cannot be
met and `realloc` fails. -/
def LineBuf.grow (b : LineBuf) : LineBuf :=
  if int_lt b.position b.bufsize then b
  else
    { b with bufsize := int_add b.bufsize VSSHL_RL_BUFSIZE,
             failed := int_negative (int_add b.bufsize VSSHL_RL_BUFSIZE) }

/-- The `while (1)` loop of `vsshl_read_line` on the characters still to come
on standard input.  The match is `c = getchar()`: the empty stream gives
`EOF` (and stays at end-of-input), otherwise the first character is
consumed.  On `EOF` or newline the terminator NUL is stored and the loop
returns; any other character is stored, `position` is incremented and the
buffer grown when full; when that fails the function does not return.  The
result is the final state and the rest of the stream. -/
def read_loop : List Char → LineBuf → LineBuf × List Char
  | [], b => (b.store '\x00', [])
  | c :: rest, b =>
    if c = '\n' then (b.store '\x00', rest)
    else if (LineBuf.grow { (b.store c) with position := int_add b.position 1 }).failed then
      (LineBuf.grow { (b.store c) with position := int_add b.position 1 }, rest)
    else read_loop rest (LineBuf.grow { (b.store c) with position := int_add b.position 1 })

/-- The state after `bufsize = VSSHL_RL_BUFSIZE; position = 0;
buffer = malloc(sizeof(char) * bufsize)`. -/
def read_init : LineBuf :=
  { bufsize := VSSHL_RL_BUFSIZE, position := 0, buffer := [], writes := [], failed := false }

/-- The function `vsshl_read_line`: the returned buffer (with the final values
of the local variables) and the rest of standard input; when `failed` is set
the function has not returned but taken the allocation-error exit. -/
def vsshl_read_line (stdin : List Char) : LineBuf × List Char :=
  read_loop stdin read_init

/-! ## The process, the operating system and outcomes -/

/-- What `waitpid` stores in `status`, as far as the macros `WIFEXITED` and
`WIFSIGNALED` tell apart. -/
inductive WStatus
  | exited (code : Nat)
  | signaled (sig : Nat)
  | stopped (sig : Nat)
  | continued
deriving DecidableEq, Repr

/-- The macro `WIFEXITED`. -/
def WIFEXITED : WStatus → Bool
  | .exited _ => true
  | _ => false

/-- The macro `WIFSIGNALED`. -/
def WIFSIGNALED : WStatus → Bool
  | .signaled _ => true
  | _ => false

/-- One observable step of the shell process.  `call` is a ghost event that
marks the entry of a builtin handler or of `vsshl_launch` with its
arguments; the others are writes to the two output streams and system
calls. -/
inductive Event
  | stdout (text : CStr)
  | stderr (text : CStr)
  | chdir (path : CStr) (ok : Bool)
  | fork (pid : Int)
  | execvp (file : CStr) (argv : List CStr)
  | waitpid (pid : Int) (status : WStatus)
  | call (fn : CStr) (args : List CStr)
deriving DecidableEq, Repr

/-- The behaviour of the platform and the operating system.  The first
argument of each system call is the number of system calls the process has
made before it, so the same call can be answered differently each time.
`chdir t cwd path` is the new working directory, or `none` on failure;
`fork t` is the value `fork()` returns in this process; `execvp t file argv`
tells whether the image was replaced; `waitpid t pid` is the value the
variable `status` holds after the call; `strerror t` is the text `perror`
prints for the current `errno`. -/
structure OS where
  sizeof_ptr : PtrSize
  chdir : Nat → CStr → CStr → Option CStr
  fork : Nat → Int
  execvp : Nat → CStr → List CStr → Bool
  waitpid : Nat → Int → WStatus
  strerror : Nat → CStr

/-- The state of the shell process: the characters still to come on standard
input (as `getchar` in this process will see them), the working directory,
the number of system calls made, and the trace of events so far. -/
structure World where
  stdin : List Char
  cwd : CStr
  clock : Nat
  trace : List Event
deriving DecidableEq, Repr

/-- Append an event to the trace. -/
def World.emit (w : World) (e : Event) : World :=
  { w with trace := w.trace ++ [e] }

/-- Count one more system call. -/
def World.tick (w : World) : World :=
  { w with clock := w.clock + 1 }

/-- How a call ends: it returns a value, or the process ends inside it
through `exit(code)`, or the process image is replaced by `execvp`, or the
fuel runs out while it is still running, or the run reaches undefined
behaviour (a store outside a heap block) in the given state. -/
inductive Outcome (α : Type)
  | ret (val : α) (w : World)
  | exit (code : Nat) (w : World)
  | exec (w : World)
  | hang
  | undefined (w : World)
deriving DecidableEq, Repr

/-- `EXIT_FAILURE` -/
def EXIT_FAILURE : Nat := 1

/-- The library call `perror("vsshl")`: one line on the error stream. -/
def perror (os : OS) (w : World) : World :=
  w.emit (.stderr ("vsshl: ".toList ++ os.strerror w.clock ++ ['\n']))

/-! ## Builtins -/

/-- `char *builtin_str[] = { "cd", "help", "exit" };` -/
def builtin_str : List CStr := ["cd".toList, "help".toList, "exit".toList]

/-- `vsshl_num_builtins`: `sizeof(builtin_str) / sizeof(char *)`. -/
def vsshl_num_builtins : Nat := builtin_str.length

/-- The line `vsshl_cd` prints when `args[1]` is `NULL`. -/
def cd_usage : CStr := "vsshl: expected argument to \"cd\"\n".toList

/-- The builtin `vsshl_cd`.  It is called with `args[0]` present, so `args[1]`
is either the second argument or the terminating `NULL`. -/
def vsshl_cd (os : OS) (args : List CStr) (w : World) : Outcome Int :=
  let w := w.emit (.call "vsshl_cd".toList args)
  match args[1]? with
  | none => .ret 1 (w.emit (.stderr cd_usage))
  | some dir =>
    match os.chdir w.clock w.cwd dir with
    | some d => .ret 1 { (w.emit (.chdir dir true)).tick with cwd := d }
    | none => .ret 1 (perror os (w.emit (.chdir dir false)).tick)

/-- The builtin `vsshl_help`: the banner, one line per builtin name (the `for`
loop over `builtin_str`), and the closing line. -/
def vsshl_help (_os : OS) (args : List CStr) (w : World) : Outcome Int :=
  let w := w.emit (.call "vsshl_help".toList args)
  let w := w.emit (.stdout "Little shell: vsshl\n".toList)
  let w := w.emit (.stdout "Type program names and arguments, then hit enter\n".toList)
  let w := w.emit (.stdout "The following commands are built in: \n".toList)
  let w := (builtin_str.take vsshl_num_builtins).foldl
    (fun w s => w.emit (.stdout (" ".toList ++ s ++ "\n".toList))) w
  let w := w.emit (.stdout "Use the man command for information of other programs\n".toList)
  .ret 1 w

/-- The builtin `vsshl_exit`: `return 0`. -/
def vsshl_exit (_os : OS) (args : List CStr) (w : World) : Outcome Int :=
  .ret 0 (w.emit (.call "vsshl_exit".toList args))

/-- `int (*builtin_func[]) (char **) = { &vsshl_cd, &vsshl_help, &vsshl_exit };` -/
def builtin_func : List (OS → List CStr → World → Outcome Int) :=
  [vsshl_cd, vsshl_help, vsshl_exit]

/-! ## Launching a program -/

/-- The loop `do { wpid = waitpid(pid, &status, WUNTRACED); }
while (!WIFEXITED(status) && !WIFSIGNALED(status));` -/
def wait_loop (os : OS) (pid : Int) : Nat → World → Outcome Unit
  | 0, _ => .hang
  | fuel + 1, w =>
    let status := os.waitpid w.clock pid
    let w := (w.emit (.waitpid pid status)).tick
    if !WIFEXITED status && !WIFSIGNALED status then wait_loop os pid fuel w
    else .ret () w

/-- The function `vsshl_launch`.  In the child (`pid == 0`) the process either
becomes the program or prints a diagnostic and exits with `EXIT_FAILURE`;
when `fork` fails the parent prints a diagnostic; otherwise the parent
waits.  The function returns 1. -/
def vsshl_launch (fuel : Nat) (os : OS) (args : List CStr) (w : World) : Outcome Int :=
  let w := w.emit (.call "vsshl_launch".toList args)
  let pid := os.fork w.clock
  let w := (w.emit (.fork pid)).tick
  if pid = 0 then
    let ok := os.execvp w.clock (args.headD []) args
    let w := (w.emit (.execvp (args.headD []) args)).tick
    if ok then .exec w else .exit EXIT_FAILURE (perror os w)
  else if pid < 0 then
    .ret 1 (perror os w)
  else
    match wait_loop os pid fuel w with
    | .ret _ w => .ret 1 w
    | .exit code w => .exit code w
    | .exec w => .exec w
    | .hang => .hang
    | .undefined w => .undefined w

/-! ## Dispatch and the main loop -/

/-- The `for` loop of `vsshl_execute` over the builtin table, followed by the
final `return vsshl_launch(args)`; `a0` is `args[0]`, compared by `strcmp`. -/
def execute_scan (fuel : Nat) (os : OS) (args : List CStr) (w : World) (a0 : CStr) :
    List CStr → List (OS → List CStr → World → Outcome Int) → Outcome Int
  | name :: names, f :: fs =>
    if a0 = name then f os args w else execute_scan fuel os args w a0 names fs
  | _, _ => vsshl_launch fuel os args w

/-- The function `vsshl_execute`. -/
def vsshl_execute (fuel : Nat) (os : OS) (args : List CStr) (w : World) : Outcome Int :=
  match args with
  | [] => .ret 1 w
  | a0 :: _ => execute_scan fuel os args w a0 builtin_str builtin_func

/-- The prompt printed by `vsshl_loop`. -/
def prompt : Event := .stdout "> ".toList

/-- The line `vsshl_read_line` prints before `exit(EXIT_FAILURE)`. -/
def allocation_error : CStr := "vsshl: allocation error\n".toList

/-- The function `vsshl_loop`: `do { ... } while (status);`.  When
`vsshl_read_line` takes its allocation-error exit the process ends there.
The line handed to the tokenizer is the C string in the buffer that
`vsshl_read_line` returned; when the tokenizer stores outside its block the
behaviour of the process is undefined from there on.  The fuel bounds the
number of iterations and the waiting inside each launch. -/
def vsshl_loop (os : OS) : Nat → World → Outcome Unit
  | 0, _ => .hang
  | fuel + 1, w =>
    let w := w.emit prompt
    let r := vsshl_read_line w.stdin
    let w := { w with stdin := r.2 }
    if r.1.failed then .exit EXIT_FAILURE (w.emit (.stderr allocation_error))
    else
      match vsshl_split_line os.sizeof_ptr (c_str r.1.buffer) with
      | none => .hang
      | some st =>
        if st.fault then .undefined w
        else
          match vsshl_execute fuel os (c_args st.tokens) w with
          | .ret status w => if status ≠ 0 then vsshl_loop os fuel w else .ret () w
          | .exit code w => .exit code w
          | .exec w => .exec w
          | .hang => .hang
          | .undefined w => .undefined w

/-- The first token of a raw input line, as the loop sees it. -/
def first_token (line : List Char) : Option CStr := (maximal_runs (c_str line)).head?

/-- The number of prompts in a trace. -/
def prompts (tr : List Event) : Nat := tr.count prompt

/-- The text written to standard output, in order. -/
def stdout_text : List Event → List Char
  | [] => []
  | .stdout t :: rest => t ++ stdout_text rest
  | _ :: rest => stdout_text rest

/-- The lines the shell will read from a stream: the stream cut at every
newline. -/
def stream_lines (s : List Char) : List (List Char) := s.splitOnP (fun c => c == '\n')

/-- A stream holds no `exit` command when no line of it has `exit` as its
first token. -/
def no_exit_command (s : List Char) : Prop :=
  ∀ l ∈ stream_lines s, first_token l ≠ some "exit".toList

instance no_exit_command_decidable (s : List Char) : Decidable (no_exit_command s) :=
  inferInstanceAs (Decidable (∀ l ∈ stream_lines s, first_token l ≠ some "exit".toList))

/-- The states of `vsshl_read_line` from which the loop is entered: no
allocation has failed, the next store is inside the block, and `bufsize` is
a multiple of 1024 that `int` holds. -/
def LineBuf.ok (b : LineBuf) : Prop :=
  b.failed = false ∧ b.position < b.bufsize ∧ b.bufsize % 1024 = 0 ∧ b.bufsize ≤ 2147482624

/-- The number of characters of a line at which `vsshl_read_line` stops
returning: with `2^31 - 1024` characters stored, `bufsize += 1024` leaves
`int`. -/
def LINE_LIMIT : Nat := 2147482624

/-- A line of 65 one-letter tokens. -/
def line_65 : CStr :=
  ("t t t t t t t t t t t t t t t t t t t t t t t t t t t t t t t t t " ++
   "t t t t t t t t t t t t t t t t t t t t t t t t t t t t t t t t").toList

/-- The events `vsshl_help` adds after its entry mark. -/
def help_output : List Event :=
  [.stdout "Little shell: vsshl\n".toList,
   .stdout "Type program names and arguments, then hit enter\n".toList,
   .stdout "The following commands are built in: \n".toList,
   .stdout " cd\n".toList, .stdout " help\n".toList, .stdout " exit\n".toList,
   .stdout "Use the man command for information of other programs\n".toList]

/-- An operating system that refuses every `fork` and `chdir`. -/
def os_refusing : OS :=
  { sizeof_ptr := 8, chdir := fun _ _ _ => none, fork := fun _ => -1,
    execvp := fun _ _ _ => false, waitpid := fun _ _ => .exited 0,
    strerror := fun _ => "error".toList }

/-- An operating system on which every child is first seen stopped (at even
clock values) and then exited with code 3. -/
def os_stopping : OS :=
  { sizeof_ptr := 8, chdir := fun _ _ p => some p, fork := fun _ => 42,
    execvp := fun _ _ _ => true,
    waitpid := fun t _ => if t % 2 = 1 then .stopped 19 else .exited 3,
    strerror := fun _ => "error".toList }

/-- A fresh process reading the given text. -/
def world_of (input : String) : World :=
  { stdin := input.toList, cwd := "/".toList, clock := 0, trace := [] }

/-! ## Lemmas on the tokenizer -/

theorem runs_nil : maximal_runs [] = [] := by
  simp [maximal_runs]

theorem runs_cons_delim {c : Char} {cs : CStr} (h : is_delim VSSHL_TOK_DELIM c = true) :
    maximal_runs (c :: cs) = maximal_runs cs := by
  simp [maximal_runs, h]

theorem runs_token (t rest : CStr) (d : Char) (ht : t ≠ [])
    (hnd : ∀ x ∈ t, ¬ is_delim VSSHL_TOK_DELIM x = true)
    (hd : is_delim VSSHL_TOK_DELIM d = true) :
    maximal_runs (t ++ d :: rest) = t :: maximal_runs rest := by
  unfold maximal_runs
  rw [List.splitOnP_first (is_delim VSSHL_TOK_DELIM) t hnd d hd rest]
  cases t with
  | nil => exact absurd rfl ht
  | cons a as => simp

theorem runs_single (t : CStr) (ht : t ≠ [])
    (hnd : ∀ x ∈ t, ¬ is_delim VSSHL_TOK_DELIM x = true) :
    maximal_runs t = [t] := by
  unfold maximal_runs
  rw [List.splitOnP_eq_single (is_delim VSSHL_TOK_DELIM) t hnd]
  cases t with
  | nil => exact absurd rfl ht
  | cons a as => simp

theorem strtok_cons_delim {c : Char} {cs : CStr} (h : is_delim VSSHL_TOK_DELIM c = true) :
    strtok VSSHL_TOK_DELIM (c :: cs) = strtok VSSHL_TOK_DELIM cs := by
  simp [strtok, h]

theorem strtok_cons_token {c : Char} {cs : CStr} (h : is_delim VSSHL_TOK_DELIM c = false) :
    strtok VSSHL_TOK_DELIM (c :: cs) =
      some ((c :: cs).takeWhile (fun x => !is_delim VSSHL_TOK_DELIM x),
            ((c :: cs).dropWhile (fun x => !is_delim VSSHL_TOK_DELIM x)).tail) := by
  simp [strtok, h]

/-- What `strtok` returns, in terms of the runs of the text. -/
theorem strtok_runs (s : CStr) :
    maximal_runs s =
      match strtok VSSHL_TOK_DELIM s with
      | none => []
      | some (t, saved) => t :: maximal_runs saved := by
  induction s with
  | nil => simp [strtok, runs_nil]
  | cons c cs ih =>
    by_cases h : is_delim VSSHL_TOK_DELIM c = true
    · rw [runs_cons_delim h, strtok_cons_delim h]; exact ih
    · have h' : is_delim VSSHL_TOK_DELIM c = false := by simpa using h
      rw [strtok_cons_token h']
      simp only
      have hsplit := List.takeWhile_append_dropWhile (fun x => !is_delim VSSHL_TOK_DELIM x) (c :: cs)
      have hne : (c :: cs).takeWhile (fun x => !is_delim VSSHL_TOK_DELIM x) ≠ [] := by
        simp [List.takeWhile_cons, h']
      have hnd : ∀ x ∈ (c :: cs).takeWhile (fun x => !is_delim VSSHL_TOK_DELIM x),
          ¬ is_delim VSSHL_TOK_DELIM x = true := by
        intro x hx
        have := List.mem_takeWhile_imp hx
        simpa using this
      generalize hd : (c :: cs).dropWhile (fun x => !is_delim VSSHL_TOK_DELIM x) = a at hsplit
      cases a with
      | nil =>
        rw [List.append_nil] at hsplit
        rw [hsplit] at hne hnd ⊢
        simp [runs_single _ hne hnd, runs_nil]
      | cons d r =>
        have hdd : is_delim VSSHL_TOK_DELIM d = true := by
          have := List.head_dropWhile_not (fun x => !is_delim VSSHL_TOK_DELIM x) (c :: cs)
            (by rw [hd]; simp)
          simpa [hd] using this
        conv_lhs => rw [← hsplit]
        rw [runs_token _ r d hne hnd hdd]
        simp

/-- Each `strtok` call that returns a token moves the saved pointer forward. -/
theorem strtok_length {s t saved : CStr} (h : strtok VSSHL_TOK_DELIM s = some (t, saved)) :
    saved.length < s.length := by
  induction s with
  | nil => simp [strtok] at h
  | cons c cs ih =>
    by_cases hc : is_delim VSSHL_TOK_DELIM c = true
    · rw [strtok_cons_delim hc] at h
      have := ih h
      simp; omega
    · have h' : is_delim VSSHL_TOK_DELIM c = false := by simpa using hc
      rw [strtok_cons_token h'] at h
      simp only [Option.some.injEq, Prod.mk.injEq] at h
      rw [← h.2]
      have h1 : ((c :: cs).dropWhile (fun x => !is_delim VSSHL_TOK_DELIM x)).length ≤ cs.length := by
        rw [List.dropWhile_cons_of_pos (by simp [h'])]
        exact (List.dropWhile_sublist _).length_le
      simp only [List.length_tail, List.length_cons]
      omega


theorem splitOnP_no_sep (p : Char → Bool) :
    ∀ (l : CStr), ∀ t ∈ l.splitOnP p, ∀ x ∈ t, ¬ p x = true := by
  intro l
  induction l with
  | nil => intro t ht x hx; simp at ht; subst ht; simp at hx
  | cons a as ih =>
    intro t ht x hx
    rw [List.splitOnP_cons] at ht
    by_cases ha : p a = true
    · rw [if_pos ha] at ht
      rcases List.mem_cons.mp ht with h | h
      · subst h; simp at hx
      · exact ih t h x hx
    · rw [if_neg ha] at ht
      cases hsp : as.splitOnP p with
      | nil => rw [hsp] at ht; simp at ht
      | cons hd tl =>
        rw [hsp] at ht ih
        simp only [List.modifyHead_cons, List.mem_cons] at ht
        rcases ht with h | h
        · subst h
          rcases List.mem_cons.mp hx with h | h
          · subst h; exact ha
          · exact ih hd (List.mem_cons_self _ _) x h
        · exact ih t (List.mem_cons_of_mem _ h) x hx

theorem runs_token_ok (line : CStr) :
    ∀ t ∈ maximal_runs line, t ≠ [] ∧ ∀ c ∈ t, ¬ is_delim VSSHL_TOK_DELIM c = true := by
  intro t ht
  simp only [maximal_runs, List.mem_filter] at ht
  refine ⟨?_, splitOnP_no_sep _ line t ht.1⟩
  intro h; subst h; simp at ht

theorem runs_join_space :
    ∀ (toks : List CStr),
      (∀ t ∈ toks, t ≠ [] ∧ ∀ c ∈ t, ¬ is_delim VSSHL_TOK_DELIM c = true) →
      maximal_runs (join_space toks) = toks := by
  intro toks
  induction toks with
  | nil => intro _; simp [join_space, List.intercalate, runs_nil]
  | cons t ts ih =>
    intro h
    have ht := h t (List.mem_cons_self _ _)
    cases ts with
    | nil => simpa [join_space, List.intercalate] using runs_single t ht.1 ht.2
    | cons u us =>
      have hrest := ih (fun x hx => h x (List.mem_cons_of_mem _ hx))
      have : join_space (t :: u :: us) = t ++ ' ' :: join_space (u :: us) := by
        simp [join_space, List.intercalate]
      rw [this, runs_token t _ ' ' ht.1 ht.2 (by decide), hrest]

theorem not_delim_iff (c : Char) :
    ¬ is_delim VSSHL_TOK_DELIM c = true ↔ c ∉ VSSHL_TOK_DELIM := by
  simp [is_delim]

theorem runs_all_delim (line : CStr) (h : ∀ c ∈ line, c ∈ VSSHL_TOK_DELIM) :
    maximal_runs line = [] := by
  induction line with
  | nil => exact runs_nil
  | cons a as ih =>
    rw [runs_cons_delim (by simpa [is_delim] using h a (List.mem_cons_self _ _))]
    exact ih (fun c hc => h c (List.mem_cons_of_mem _ hc))

theorem int_add_small {a b : Nat} (h : a + b < 4294967296) : int_add a b = a + b := by
  unfold int_add
  omega

theorem int_lt_small {a b : Nat} (ha : a < 2147483648) (hb : b < 2147483648) :
    int_lt a b = decide (a < b) := by
  unfold int_lt
  have h1 : (a + 2147483648) % 4294967296 = a + 2147483648 := Nat.mod_eq_of_lt (by omega)
  have h2 : (b + 2147483648) % 4294967296 = b + 2147483648 := Nat.mod_eq_of_lt (by omega)
  rw [h1, h2]
  by_cases h : a < b
  · rw [decide_eq_true h, decide_eq_true (by omega)]
  · rw [decide_eq_false h, decide_eq_false (by omega)]

theorem ptr_slots (psz : PtrSize) :
    0 < VSSHL_TOK_BUFSIZE / psz.bytes ∧ VSSHL_TOK_BUFSIZE / psz.bytes ≤ 16 := by
  cases psz <;> decide

theorem split_loop_none (psz : PtrSize) (fuel : Nat) (st : TokArray) :
    split_loop psz fuel none st = some st := by
  cases fuel <;> rfl

/-- The run of the loop of `vsshl_split_line` from a state in which no store
has left the block and the block is no larger than `bufsize` slots: with
more fuel than characters it ends; while the tokens still to come fit in the
block they are stored in order and nothing is reallocated; as soon as one
does not fit, the run stops with `fault` set. -/
theorem split_loop_run (psz : PtrSize) :
    ∀ (fuel : Nat) (s : CStr) (st : TokArray), s.length < fuel →
      st.fault = false → st.position ≤ st.bytes / psz.bytes →
      st.bytes / psz.bytes ≤ st.bufsize → st.bufsize < 2147483648 →
      ∃ st', split_loop psz fuel (strtok VSSHL_TOK_DELIM s) st = some st' ∧
        (st.position + (maximal_runs s).length ≤ st.bytes / psz.bytes →
          st'.fault = false ∧
          st'.tokens = st.tokens ++ (maximal_runs s).map some ∧
          st'.position = st.position + (maximal_runs s).length ∧
          st'.bytes = st.bytes ∧
          st'.writes = st.writes ++ (List.range (maximal_runs s).length).map
            (fun i => (⟨st.position + i, st.bytes / psz.bytes⟩ : Write))) ∧
        (st.bytes / psz.bytes < st.position + (maximal_runs s).length →
          st'.fault = true) := by
  intro fuel
  induction fuel with
  | zero => intro s st h; omega
  | succ n ih =>
    intro s st h hf hpos hslots hbuf
    have hr := strtok_runs s
    cases hs : strtok VSSHL_TOK_DELIM s with
    | none =>
      rw [hs] at hr
      refine ⟨st, split_loop_none _ _ _, ?_, ?_⟩
      · intro _; simp [hr, hf]
      · intro hlt; rw [hr] at hlt; simp at hlt; omega
    | some r =>
      obtain ⟨t, saved⟩ := r
      rw [hs] at hr
      have hlen := strtok_length hs
      rw [hr]
      simp only [List.length_cons, List.map_cons]
      by_cases hin : st.position < st.bytes / psz.bytes
      · have hstore : st.store psz (some t)
            = { st with tokens := st.tokens ++ [some t],
                        writes := st.writes ++ [⟨st.position, st.bytes / psz.bytes⟩] } := by
          simp [TokArray.store, hin]
        have hadd : int_add st.position 1 = st.position + 1 := int_add_small (by omega)
        have hcmp : int_lt st.bufsize (st.position + 1) = false := by
          rw [int_lt_small hbuf (by omega)]
          simp; omega
        have hstep : split_loop psz (n + 1) (some (t, saved)) st
            = split_loop psz n (strtok VSSHL_TOK_DELIM saved)
                { st with tokens := st.tokens ++ [some t],
                          writes := st.writes ++ [⟨st.position, st.bytes / psz.bytes⟩],
                          position := st.position + 1 } := by
          simp only [split_loop, hstore, hf, hadd, TokArray.grow, hcmp]
          simp
        obtain ⟨st', h1, h2, h3⟩ := ih saved
          { st with tokens := st.tokens ++ [some t],
                    writes := st.writes ++ [⟨st.position, st.bytes / psz.bytes⟩],
                    position := st.position + 1 }
          (by omega) hf (by simpa using hin) hslots hbuf
        refine ⟨st', by rw [hstep]; exact h1, ?_, ?_⟩
        · intro hfit
          obtain ⟨g1, g2, g3, g4, g5⟩ := h2 (by simp only; omega)
          refine ⟨g1, by rw [g2]; simp, by rw [g3]; simp only; omega, g4, ?_⟩
          rw [g5, List.range_succ_eq_map]
          simp [Function.comp_def, Nat.add_assoc, Nat.add_comm 1]
        · intro hlt
          exact h3 (by simp only; omega)
      · have hstore : (st.store psz (some t)).fault = true := by
          simp [TokArray.store, hin]
        refine ⟨st.store psz (some t), by simp [split_loop, hstore], ?_, fun _ => hstore⟩
        intro hfit
        omega

theorem c_args_map_some (l : List CStr) (r : List (Option CStr)) :
    c_args (l.map some ++ none :: r) = l := by
  induction l with
  | nil => rfl
  | cons a as ih => simp [c_args, ih]

/-- The run of `vsshl_split_line`: it always ends; it ends without a store
outside the block exactly when the line has fewer tokens than the block has
slots, and then the slots hold the runs of the line and the terminator, each
stored at its index; otherwise `fault` is set. -/
theorem split_line_run (psz : PtrSize) (line : CStr) :
    ∃ st, vsshl_split_line psz line = some st ∧
      ((maximal_runs line).length < VSSHL_TOK_BUFSIZE / psz.bytes →
        st.fault = false ∧ st.tokens = (maximal_runs line).map some ++ [none] ∧
        st.writes = (List.range ((maximal_runs line).length + 1)).map
          (fun i => (⟨i, VSSHL_TOK_BUFSIZE / psz.bytes⟩ : Write))) ∧
      (VSSHL_TOK_BUFSIZE / psz.bytes ≤ (maximal_runs line).length → st.fault = true) := by
  have hslots := ptr_slots psz
  obtain ⟨st', h1, h2, h3⟩ := split_loop_run psz (line.length + 1) line split_init
    (by omega) rfl (by simp [split_init]) (by simp [split_init, VSSHL_TOK_BUFSIZE] at hslots ⊢; omega)
    (by simp [split_init, VSSHL_TOK_BUFSIZE])
  simp only [split_init, Nat.zero_add, Nat.one_mul, List.nil_append] at h2 h3
  refine ⟨if st'.fault then st' else st'.store psz none, by simp [vsshl_split_line, h1], ?_, ?_⟩
  · intro hlt
    obtain ⟨g1, g2, g3, g4, g5⟩ := h2 (by omega)
    have hin : st'.position < st'.bytes / psz.bytes := by rw [g3, g4]; exact hlt
    have hres : (if st'.fault then st' else st'.store psz none)
        = { st' with tokens := st'.tokens ++ [none],
                     writes := st'.writes ++ [⟨st'.position, st'.bytes / psz.bytes⟩] } := by
      simp [g1, TokArray.store, hin]
    rw [hres]
    refine ⟨g1, by simp only [g2], ?_⟩
    simp only [g5, g3, g4]
    rw [List.range_succ, List.map_append]
    rfl
  · intro hge
    rcases Nat.lt_or_ge (VSSHL_TOK_BUFSIZE / psz.bytes) (maximal_runs line).length with hgt | hle
    · simp [h3 hgt]
    · have heq : (maximal_runs line).length = VSSHL_TOK_BUFSIZE / psz.bytes := by omega
      obtain ⟨g1, g2, g3, g4, g5⟩ := h2 (by omega)
      have hout : ¬ st'.position < st'.bytes / psz.bytes := by rw [g3, g4]; omega
      simp [g1, TokArray.store, hout]

/-- What `vsshl_split_line` returns: the runs of the line when they are fewer
than the slots of the block first allocated, and nothing defined
otherwise. -/
theorem split_args_eq (psz : PtrSize) (line : CStr) :
    split_args psz line =
      if (maximal_runs line).length < VSSHL_TOK_BUFSIZE / psz.bytes
      then some (maximal_runs line) else none := by
  obtain ⟨st, h1, h2, h3⟩ := split_line_run psz line
  unfold split_args
  rw [h1]
  by_cases hlt : (maximal_runs line).length < VSSHL_TOK_BUFSIZE / psz.bytes
  · obtain ⟨g1, g2, _⟩ := h2 hlt
    simp [hlt, g1, g2, c_args_map_some]
  · simp [hlt, h3 (by omega)]

/-! ## Properties of the tokenizer -/

/-- The tokenizer and the runs on a sample line. -/
theorem split_args_sample :
    split_args 8 "  ls  -l\t/tmp \r\n".toList = some ["ls".toList, "-l".toList, "/tmp".toList] ∧
    maximal_runs "  ls  -l\t/tmp \r\n".toList = ["ls".toList, "-l".toList, "/tmp".toList] := by
  decide

/-- Below the size of the block the tokenizer is right: a line with fewer
tokens than the block has slots is split into its maximal runs, which are
non-empty and free of delimiters, and splitting the runs joined by single
spaces gives them again. -/
theorem split_args_short_line (psz : PtrSize) (line : CStr)
    (h : (maximal_runs line).length < VSSHL_TOK_BUFSIZE / psz.bytes) :
    split_args psz line = some (maximal_runs line) ∧
    split_args psz (join_space (maximal_runs line)) = some (maximal_runs line) ∧
    ∀ t ∈ maximal_runs line, t ≠ [] ∧ ∀ c ∈ t, c ∉ VSSHL_TOK_DELIM := by
  refine ⟨by rw [split_args_eq, if_pos h], ?_, ?_⟩
  · rw [split_args_eq, runs_join_space _ (runs_token_ok line), if_pos h]
  · intro t ht
    have := runs_token_ok line t ht
    exact ⟨this.1, fun c hc => (not_delim_iff c).mp (this.2 c hc)⟩

set_option maxRecDepth 100000 in
/-- C1 (the code breaks it): the line of 65 one-letter tokens has 65 maximal
runs, but `vsshl_split_line` (8-byte pointers) does not return them: after
the tokens at indices 0 to 7 of its 8-slot block, the ninth store, at index
8, is outside the block, and the run has no defined result. -/
theorem split_line_overruns_on_65_tokens :
    (maximal_runs line_65).length = 65 ∧
    split_args 8 line_65 = none ∧
    (vsshl_split_line 8 line_65).map (fun st => (st.fault, st.tokens.length, st.writes)) =
      some (true, 8,
        [⟨0, 8⟩, ⟨1, 8⟩, ⟨2, 8⟩, ⟨3, 8⟩, ⟨4, 8⟩, ⟨5, 8⟩, ⟨6, 8⟩, ⟨7, 8⟩, ⟨8, 8⟩]) := by
  decide

set_option maxRecDepth 100000 in
/-- C3 (the code breaks it): the line of 65 one-letter tokens is its own
maximal runs joined by single spaces, and neither its tokenization nor that
of the joined text is defined: both runs store outside the block. -/
theorem split_line_join_undefined_on_65_tokens :
    join_space (maximal_runs line_65) = line_65 ∧
    split_args 8 line_65 = none ∧
    split_args 8 (join_space (maximal_runs line_65)) = none := by
  decide

/-- C9 (the code breaks it): on a line of eight tokens, with 8-byte pointers,
`vsshl_split_line` stores the tokens at indices 0 to 7 of a block of
`64 / 8 = 8` slots and then the terminating `NULL` at index 8 of the same
8 slots, one past its end. -/
theorem split_line_terminator_past_block :
    (vsshl_split_line 8 "a b c d e f g h".toList).map (fun st => st.writes) =
      some [⟨0, 8⟩, ⟨1, 8⟩, ⟨2, 8⟩, ⟨3, 8⟩, ⟨4, 8⟩, ⟨5, 8⟩, ⟨6, 8⟩, ⟨7, 8⟩, ⟨8, 8⟩] := by
  decide

/-! ## Properties of the line reader -/

theorem int_negative_eq_false (a : Nat) (h : a < 2147483648) : int_negative a = false := by
  unfold int_negative
  exact decide_eq_false (by omega)

theorem int_negative_eq_true (a : Nat) (h1 : 2147483648 ≤ a) (h2 : a < 4294967296) :
    int_negative a = true := by
  unfold int_negative
  exact decide_eq_true (by omega)

/-- One non-newline character: it is stored inside the block; below the limit
the state stays a good one, at the limit `realloc` fails. -/
theorem read_step (b : LineBuf) (c : Char) (hb : b.ok) :
    (b.position + 1 < LINE_LIMIT →
      (LineBuf.grow { (b.store c) with position := int_add b.position 1 }).ok ∧
      (LineBuf.grow { (b.store c) with position := int_add b.position 1 }).buffer
        = b.buffer ++ [c] ∧
      (LineBuf.grow { (b.store c) with position := int_add b.position 1 }).position
        = b.position + 1 ∧
      (LineBuf.grow { (b.store c) with position := int_add b.position 1 }).writes
        = b.writes ++ [⟨b.position, b.bufsize⟩]) ∧
    (LINE_LIMIT ≤ b.position + 1 →
      (LineBuf.grow { (b.store c) with position := int_add b.position 1 }).failed = true) := by
  obtain ⟨h1, h2, h3, h4⟩ := hb
  have hadd : int_add b.position 1 = b.position + 1 := int_add_small (by omega)
  have hcmp : int_lt (b.position + 1) b.bufsize = decide (b.position + 1 < b.bufsize) :=
    int_lt_small (by omega) (by omega)
  have hgrow : int_add b.bufsize VSSHL_RL_BUFSIZE = b.bufsize + 1024 := by
    unfold VSSHL_RL_BUFSIZE
    exact int_add_small (by omega)
  by_cases hlt : b.position + 1 < b.bufsize
  · have hval : LineBuf.grow { (b.store c) with position := int_add b.position 1 }
        = { bufsize := b.bufsize, position := b.position + 1, buffer := b.buffer ++ [c],
            writes := b.writes ++ [⟨b.position, b.bufsize⟩], failed := b.failed } := by
      simp [LineBuf.grow, LineBuf.store, hadd, hcmp, hlt]
    rw [hval]
    exact ⟨fun _ => ⟨⟨h1, hlt, h3, h4⟩, rfl, rfl, rfl⟩,
      fun hge => by unfold LINE_LIMIT at hge; omega⟩
  · have hval : LineBuf.grow { (b.store c) with position := int_add b.position 1 }
        = { bufsize := b.bufsize + 1024, position := b.position + 1,
            buffer := b.buffer ++ [c],
            writes := b.writes ++ [⟨b.position, b.bufsize⟩],
            failed := int_negative (b.bufsize + 1024) } := by
      simp [LineBuf.grow, LineBuf.store, hadd, hcmp, hlt, hgrow]
    rw [hval]
    refine ⟨fun hlim => ⟨⟨?_, ?_, ?_, ?_⟩, rfl, rfl, rfl⟩, fun hge => ?_⟩
    · unfold LINE_LIMIT at hlim
      dsimp only
      exact int_negative_eq_false _ (by omega)
    · exact (show b.position + 1 < b.bufsize + 1024 by omega)
    · exact (show (b.bufsize + 1024) % 1024 = 0 by omega)
    · unfold LINE_LIMIT at hlim
      exact (show b.bufsize + 1024 ≤ 2147482624 by omega)
    · unfold LINE_LIMIT at hge
      dsimp only
      exact int_negative_eq_true _ (by omega) (by omega)

/-- The loop of `vsshl_read_line` on a line that stays below the limit: what
it stores, where it stops, and that it stays in bounds. -/
theorem read_loop_spec :
    ∀ (s : List Char) (b : LineBuf), b.ok →
      (∀ x ∈ b.writes, x.index < x.cells) →
      b.position + (s.takeWhile (fun c => c != '\n')).length < LINE_LIMIT →
      (read_loop s b).1.failed = false ∧
      (read_loop s b).1.buffer = b.buffer ++ s.takeWhile (fun c => c != '\n') ++ ['\x00'] ∧
      (read_loop s b).1.position = b.position + (s.takeWhile (fun c => c != '\n')).length ∧
      (read_loop s b).2 = (s.dropWhile (fun c => c != '\n')).tail ∧
      (∀ x ∈ (read_loop s b).1.writes, x.index < x.cells) := by
  intro s
  induction s with
  | nil =>
    intro b hb hw _
    refine ⟨by simpa [read_loop, LineBuf.store] using hb.1, by simp [read_loop, LineBuf.store],
      by simp [read_loop, LineBuf.store], by simp [read_loop], ?_⟩
    intro x hx
    simp only [read_loop, LineBuf.store, List.mem_append, List.mem_singleton] at hx
    rcases hx with hx | hx
    · exact hw x hx
    · subst hx; exact hb.2.1
  | cons c cs ih =>
    intro b hb hw hlen
    by_cases hc : c = '\n'
    · subst hc
      refine ⟨by simpa [read_loop, LineBuf.store] using hb.1,
        by simp [read_loop, LineBuf.store], by simp [read_loop, LineBuf.store],
        by simp [read_loop], ?_⟩
      intro x hx
      simp only [read_loop, LineBuf.store, if_true, List.mem_append, List.mem_singleton] at hx
      rcases hx with hx | hx
      · exact hw x hx
      · subst hx; exact hb.2.1
    · have htw : (c :: cs).takeWhile (fun c => c != '\n')
          = c :: cs.takeWhile (fun c => c != '\n') := by
        simp [List.takeWhile_cons, hc]
      have hdw : (c :: cs).dropWhile (fun c => c != '\n')
          = cs.dropWhile (fun c => c != '\n') := by
        simp [List.dropWhile_cons, hc]
      rw [htw, List.length_cons] at hlen
      obtain ⟨hok, hbuf, hp, hwr⟩ := (read_step b c hb).1 (by omega)
      have hstep : read_loop (c :: cs) b
          = read_loop cs (LineBuf.grow { (b.store c) with position := int_add b.position 1 }) := by
        simp only [read_loop, hc, if_false, hok.1, Bool.false_eq_true]
      have hw' : ∀ x ∈ (LineBuf.grow
          { (b.store c) with position := int_add b.position 1 }).writes, x.index < x.cells := by
        intro x hx
        rw [hwr] at hx
        rcases List.mem_append.mp hx with h | h
        · exact hw x h
        · simp only [List.mem_singleton] at h; subst h; exact hb.2.1
      obtain ⟨g0, g1, g2, g3, g4⟩ := ih _ hok hw' (by rw [hp]; omega)
      rw [hstep, htw, hdw]
      refine ⟨g0, ?_, ?_, g3, g4⟩
      · rw [g1, hbuf]; simp
      · rw [g2, hp, List.length_cons]; omega

/-- The loop of `vsshl_read_line` on a line that reaches the limit: after
`LINE_LIMIT` characters `realloc` fails, with the rest of the line still
unread. -/
theorem read_loop_overflow :
    ∀ (s : List Char) (b : LineBuf), b.ok →
      LINE_LIMIT ≤ b.position + (s.takeWhile (fun c => c != '\n')).length →
      (read_loop s b).1.failed = true ∧
      (read_loop s b).2 = s.drop (LINE_LIMIT - b.position) := by
  intro s
  induction s with
  | nil =>
    intro b hb hlen
    obtain ⟨_, h2, _, h4⟩ := hb
    simp only [List.takeWhile_nil, List.length_nil, LINE_LIMIT] at hlen
    omega
  | cons c cs ih =>
    intro b hb hlen
    have hlim : b.position < LINE_LIMIT := by
      obtain ⟨_, h2, _, h4⟩ := hb
      unfold LINE_LIMIT; omega
    by_cases hc : c = '\n'
    · subst hc
      simp only [List.takeWhile_cons, bne_self_eq_false, Bool.false_eq_true, if_false,
        List.length_nil] at hlen
      omega
    · have htw : (c :: cs).takeWhile (fun c => c != '\n')
          = c :: cs.takeWhile (fun c => c != '\n') := by
        simp [List.takeWhile_cons, hc]
      rw [htw, List.length_cons] at hlen
      by_cases hat : LINE_LIMIT ≤ b.position + 1
      · have hfail := (read_step b c hb).2 hat
        have hd : LINE_LIMIT - b.position = 1 := by omega
        simp only [read_loop, hc, if_false, hfail, if_true, hd, List.drop_succ_cons,
          List.drop_zero, and_self]
      · obtain ⟨hok, _, hp, _⟩ := (read_step b c hb).1 (by omega)
        have hstep : read_loop (c :: cs) b
            = read_loop cs
                (LineBuf.grow { (b.store c) with position := int_add b.position 1 }) := by
          simp only [read_loop, hc, if_false, hok.1, Bool.false_eq_true]
        obtain ⟨g1, g2⟩ := ih _ hok (by rw [hp]; omega)
        rw [hstep]
        refine ⟨g1, ?_⟩
        rw [g2, hp]
        have hd : LINE_LIMIT - b.position = (LINE_LIMIT - (b.position + 1)) + 1 := by omega
        rw [hd, List.drop_succ_cons]

theorem read_init_ok : read_init.ok := by
  simp [LineBuf.ok, read_init, VSSHL_RL_BUFSIZE]

theorem c_str_append_nul (l : List Char) (h : '\x00' ∉ l) : c_str (l ++ ['\x00']) = l := by
  induction l with
  | nil => simp [c_str]
  | cons a as ih =>
    have ha : a ≠ '\x00' := fun e => h (by simp [e])
    have := ih (fun hm => h (List.mem_cons_of_mem _ hm))
    simp only [c_str] at this ⊢
    simp [List.takeWhile_cons, ha, this]

/-- C6 (as amended): for every input stream whose first line has fewer than
`2^31 - 1024` characters, `vsshl_read_line` returns, and the buffer it
returns holds exactly the characters before the first newline (all of them
when there is no newline), in order, followed by the terminating NUL;
`position` is their number; the rest of the stream is what follows that
newline; every store is inside the block, which has been grown in time
(lines of 1023, 1024, 1025 characters included); and when the line holds no
NUL the returned C string is the line. -/
theorem read_line_returns_first_line (stdin : List Char)
    (h : (stdin.takeWhile (fun c => c != '\n')).length < LINE_LIMIT) :
    (vsshl_read_line stdin).1.failed = false ∧
    (vsshl_read_line stdin).1.buffer = stdin.takeWhile (fun c => c != '\n') ++ ['\x00'] ∧
    (vsshl_read_line stdin).1.position = (stdin.takeWhile (fun c => c != '\n')).length ∧
    (vsshl_read_line stdin).2 = (stdin.dropWhile (fun c => c != '\n')).tail ∧
    (∀ x ∈ (vsshl_read_line stdin).1.writes, x.index < x.cells) ∧
    ('\x00' ∉ stdin.takeWhile (fun c => c != '\n') →
      c_str (vsshl_read_line stdin).1.buffer = stdin.takeWhile (fun c => c != '\n')) := by
  obtain ⟨h0, h1, h2, h3, h4⟩ := read_loop_spec stdin read_init read_init_ok
    (by simp [read_init]) (by simpa [read_init] using h)
  have hbuf : (vsshl_read_line stdin).1.buffer
      = stdin.takeWhile (fun c => c != '\n') ++ ['\x00'] := by
    simpa [vsshl_read_line, read_init] using h1
  refine ⟨h0, hbuf, by simpa [vsshl_read_line, read_init] using h2, h3, h4, ?_⟩
  intro hn
  rw [hbuf, c_str_append_nul _ hn]

theorem line_split (p tail : List Char) (hp : '\n' ∉ p)
    (htail : tail = [] ∨ tail.head? = some '\n') :
    (p ++ tail).takeWhile (fun c => c != '\n') = p ∧
    (p ++ tail).dropWhile (fun c => c != '\n') = tail := by
  have hall : ∀ a ∈ p, (fun c => c != '\n') a = true := by
    intro a ha
    have : a ≠ '\n' := fun e => hp (e ▸ ha)
    simpa using this
  rw [List.takeWhile_append_of_pos hall, List.dropWhile_append_of_pos hall]
  rcases htail with h | h
  · subst h; simp
  · cases tail with
    | nil => simp
    | cons c cs =>
      simp only [List.head?_cons, Option.some.injEq] at h
      subst h
      simp

/-- The reader on a stream given as its first line and what follows. -/
theorem read_line_of_line (p rest : List Char) (hp : '\n' ∉ p) :
    (p.length < LINE_LIMIT →
      (vsshl_read_line (p ++ '\n' :: rest)).1.failed = false ∧
      (vsshl_read_line (p ++ '\n' :: rest)).1.buffer = p ++ ['\x00'] ∧
      (vsshl_read_line (p ++ '\n' :: rest)).2 = rest) ∧
    (p.length = LINE_LIMIT →
      (vsshl_read_line (p ++ '\n' :: rest)).1.failed = true ∧
      (vsshl_read_line (p ++ '\n' :: rest)).2 = '\n' :: rest) := by
  obtain ⟨htw, hdw⟩ := line_split p ('\n' :: rest) hp (Or.inr rfl)
  have hp0 : read_init.position = 0 := rfl
  constructor
  · intro hlen
    obtain ⟨h0, h1, _, h3, _⟩ := read_loop_spec (p ++ '\n' :: rest) read_init read_init_ok
      (by simp [read_init]) (by rw [htw, hp0]; omega)
    rw [htw] at h1
    rw [hdw] at h3
    exact ⟨h0, by simpa [read_init] using h1, h3⟩
  · intro hlen
    obtain ⟨h1, h2⟩ := read_loop_overflow (p ++ '\n' :: rest) read_init read_init_ok
      (by rw [htw, hp0]; omega)
    refine ⟨h1, ?_⟩
    rw [vsshl_read_line, h2, hp0, Nat.sub_zero, ← hlen, List.drop_left]

theorem read_line_returns_first_line_witness :
    (vsshl_read_line (List.replicate 1025 'a' ++ '\n' :: "ls".toList)).1.failed = false ∧
    (vsshl_read_line (List.replicate 1025 'a' ++ '\n' :: "ls".toList)).1.buffer
      = List.replicate 1025 'a' ++ ['\x00'] ∧
    (vsshl_read_line (List.replicate 1025 'a' ++ '\n' :: "ls".toList)).2 = "ls".toList := by
  have hnl : '\n' ∉ List.replicate 1025 'a' := fun hc => by
    have := List.eq_of_mem_replicate hc
    exact absurd this (by decide)
  obtain ⟨htw, hdw⟩ := line_split (List.replicate 1025 'a') ('\n' :: "ls".toList) hnl
    (Or.inr rfl)
  have hlen : (List.replicate 1025 'a').length = 1025 := List.length_replicate _ _
  have h := read_line_returns_first_line (List.replicate 1025 'a' ++ '\n' :: "ls".toList)
    (by rw [htw, hlen]; unfold LINE_LIMIT; omega)
  rw [htw, hdw] at h
  exact ⟨h.1, h.2.1, h.2.2.2.1⟩

/-- C6 (counterexample): on a line of `2^31 - 1024` characters
`vsshl_read_line` does not return the line: once they are stored,
`bufsize += 1024` wraps, `realloc` fails and the function takes the
allocation-error exit, the terminator still unread. -/
theorem read_line_fails_at_int_limit :
    (vsshl_read_line (List.replicate 2147482624 'a' ++ ['\n'])).1.failed = true ∧
    (vsshl_read_line (List.replicate 2147482624 'a' ++ ['\n'])).2 = ['\n'] :=
  (read_line_of_line (List.replicate 2147482624 'a') []
    (fun hc => absurd (List.eq_of_mem_replicate hc) (by decide))).2
    (List.length_replicate _ _)

/-! ## Properties of the builtins and of the launcher -/

/-- C7: called with `cd` alone, `vsshl_cd` returns 1 and changes nothing but
the trace: the working directory and the system-call count stay as they
were (no `chdir`), and besides the entry mark the only event is one write to
the error stream, of a text that is a single line. -/
theorem cd_without_argument (os : OS) (w : World) (args : List CStr)
    (h0 : args.head? = some "cd".toList) (h1 : args[1]? = none) :
    vsshl_cd os args w =
      .ret 1 { w with trace := w.trace ++ [.call "vsshl_cd".toList args, .stderr cd_usage] } ∧
    vsshl_execute 0 os args w = vsshl_cd os args w ∧
    cd_usage.count '\n' = 1 ∧ cd_usage.getLast? = some '\n' := by
  refine ⟨?_, ?_, by decide, by decide⟩
  · simp [vsshl_cd, World.emit, h1]
  · cases args with
    | nil => simp at h0
    | cons a as =>
      simp only [List.head?_cons, Option.some.injEq] at h0
      subst h0
      simp [vsshl_execute, execute_scan, builtin_str, builtin_func]

theorem cd_without_argument_witness :
    vsshl_cd os_stopping ["cd".toList] (world_of "") =
      .ret 1 { world_of "" with
        trace := (world_of "").trace ++ [.call "vsshl_cd".toList ["cd".toList], .stderr cd_usage] } ∧
    vsshl_execute 0 os_stopping ["cd".toList] (world_of "") =
      vsshl_cd os_stopping ["cd".toList] (world_of "") ∧
    cd_usage.count '\n' = 1 ∧ cd_usage.getLast? = some '\n' :=
  cd_without_argument os_stopping (world_of "") ["cd".toList] (by decide) (by decide)

/-- C2: a line made up of delimiter characters only (the empty line
included) is split into the empty argument list, and `vsshl_execute` on
that list returns 1 and leaves the process as it was: no handler or launch
is entered, no system call is made, nothing is written. -/
theorem blank_line_dispatches_nothing (psz : PtrSize) (fuel : Nat) (os : OS) (w : World)
    (line : CStr) (h : ∀ c ∈ line, c ∈ VSSHL_TOK_DELIM) :
    ∃ args, split_args psz line = some args ∧ args = [] ∧
      vsshl_execute fuel os args w = .ret 1 w := by
  refine ⟨[], ?_, rfl, rfl⟩
  rw [split_args_eq, runs_all_delim line h]
  exact if_pos (ptr_slots psz).1

theorem blank_line_dispatches_nothing_witness :
    ∃ args, split_args 8 [' ', '\t', '\r', '\n', Char.ofNat 7, ' '] = some args ∧ args = [] ∧
      vsshl_execute 3 os_stopping args (world_of "ls\n") = .ret 1 (world_of "ls\n") :=
  blank_line_dispatches_nothing 8 3 os_stopping (world_of "ls\n")
    [' ', '\t', '\r', '\n', Char.ofNat 7, ' '] (by decide)

/-- The waiting loop returns right after the first status that is "exited"
or "killed by signal", having called `waitpid` once per status seen. -/
theorem wait_loop_spec (os : OS) (pid : Int) :
    ∀ (n fuel : Nat) (w : World), n < fuel →
      (∀ i, i < n → (WIFEXITED (os.waitpid (w.clock + i) pid) ||
        WIFSIGNALED (os.waitpid (w.clock + i) pid)) = false) →
      (WIFEXITED (os.waitpid (w.clock + n) pid) ||
        WIFSIGNALED (os.waitpid (w.clock + n) pid)) = true →
      wait_loop os pid fuel w =
        .ret () { w with
          clock := w.clock + (n + 1),
          trace := w.trace ++ (List.range (n + 1)).map
            (fun i => Event.waitpid pid (os.waitpid (w.clock + i) pid)) } := by
  intro n
  induction n with
  | zero =>
    intro fuel w hf _ ht
    obtain ⟨f, rfl⟩ : ∃ f, fuel = f + 1 := ⟨fuel - 1, by omega⟩
    simp only [Nat.add_zero, Bool.or_eq_true] at ht
    simp only [wait_loop]
    rcases ht with ht | ht <;> simp [ht, World.emit, World.tick, List.range_succ]
  | succ m ih =>
    intro fuel w hf hnt ht
    obtain ⟨f, rfl⟩ : ∃ f, fuel = f + 1 := ⟨fuel - 1, by omega⟩
    have h0 := hnt 0 (by omega)
    simp only [Nat.add_zero, Bool.or_eq_false_iff] at h0
    have hrec := ih f ((w.emit (.waitpid pid (os.waitpid w.clock pid))).tick) (by omega)
      (fun i hi => by
        have := hnt (i + 1) (by omega)
        simpa [World.emit, World.tick, Nat.add_assoc, Nat.add_comm 1 i] using this)
      (by simpa [World.emit, World.tick, Nat.add_assoc, Nat.add_comm 1 m] using ht)
    simp only [wait_loop, h0.1, h0.2, Bool.not_false, Bool.and_self, if_true]
    rw [hrec]
    simp only [World.emit, World.tick]
    congr 2
    · omega
    · rw [List.range_succ_eq_map (m + 1)]
      simp [Function.comp_def, Nat.add_assoc, Nat.add_comm 1]

/-- As long as no status seen is "exited" or "killed by signal" the waiting
loop goes on. -/
theorem wait_loop_hang (os : OS) (pid : Int) :
    ∀ (fuel : Nat) (w : World),
      (∀ i, i < fuel → (WIFEXITED (os.waitpid (w.clock + i) pid) ||
        WIFSIGNALED (os.waitpid (w.clock + i) pid)) = false) →
      wait_loop os pid fuel w = .hang := by
  intro fuel
  induction fuel with
  | zero => intro w _; rfl
  | succ f ih =>
    intro w hnt
    have h0 := hnt 0 (by omega)
    simp only [Nat.add_zero, Bool.or_eq_false_iff] at h0
    simp only [wait_loop, h0.1, h0.2, Bool.not_false, Bool.and_self, if_true]
    apply ih
    intro i hi
    have := hnt (i + 1) (by omega)
    simpa [World.emit, World.tick, Nat.add_assoc, Nat.add_comm 1 i] using this

theorem wait_loop_returns (os : OS) (pid : Int) (n : Nat) (w : World)
    (ht : (WIFEXITED (os.waitpid (w.clock + n) pid) ||
      WIFSIGNALED (os.waitpid (w.clock + n) pid)) = true) :
    ∃ m, m ≤ n ∧ ∀ fuel, n < fuel → wait_loop os pid fuel w =
      .ret () { w with
        clock := w.clock + (m + 1),
        trace := w.trace ++ (List.range (m + 1)).map
          (fun i => Event.waitpid pid (os.waitpid (w.clock + i) pid)) } := by
  have hex : ∃ m, (WIFEXITED (os.waitpid (w.clock + m) pid) ||
      WIFSIGNALED (os.waitpid (w.clock + m) pid)) = true := ⟨n, ht⟩
  refine ⟨Nat.find hex, Nat.find_le ht, ?_⟩
  intro fuel hf
  apply wait_loop_spec os pid (Nat.find hex) fuel w
  · exact lt_of_le_of_lt (Nat.find_le ht) hf
  · intro i hi
    have := Nat.find_min hex hi
    simpa using this
  · exact Nat.find_spec hex

/-- C10: for every non-empty argument list and every operating system, in
the parent: when `fork` fails `vsshl_launch` makes no further system call,
writes one diagnostic to the error stream and returns 1; when `fork`
succeeds it calls `waitpid` on the child once for each status seen up to and
including the first that is "exited" or "killed by signal" and then returns
1, whatever that status carries; and while every status seen is neither, it
keeps waiting. -/
theorem launch_in_parent (fuel : Nat) (os : OS) (args : List CStr) (w : World)
    (_hargs : args ≠ []) :
    (os.fork w.clock < 0 →
      vsshl_launch fuel os args w =
        .ret 1 { w with
          clock := w.clock + 1,
          trace := w.trace ++ [.call "vsshl_launch".toList args, .fork (os.fork w.clock),
            .stderr ("vsshl: ".toList ++ os.strerror (w.clock + 1) ++ ['\n'])] }) ∧
    (0 < os.fork w.clock → ∀ n, n < fuel →
      (∀ i, i < n → (WIFEXITED (os.waitpid (w.clock + 1 + i) (os.fork w.clock)) ||
        WIFSIGNALED (os.waitpid (w.clock + 1 + i) (os.fork w.clock))) = false) →
      (WIFEXITED (os.waitpid (w.clock + 1 + n) (os.fork w.clock)) ||
        WIFSIGNALED (os.waitpid (w.clock + 1 + n) (os.fork w.clock))) = true →
      vsshl_launch fuel os args w =
        .ret 1 { w with
          clock := w.clock + 1 + (n + 1),
          trace := w.trace ++ [.call "vsshl_launch".toList args, .fork (os.fork w.clock)] ++
            (List.range (n + 1)).map
              (fun i => Event.waitpid (os.fork w.clock)
                (os.waitpid (w.clock + 1 + i) (os.fork w.clock))) }) ∧
    (0 < os.fork w.clock →
      (∀ i, i < fuel → (WIFEXITED (os.waitpid (w.clock + 1 + i) (os.fork w.clock)) ||
        WIFSIGNALED (os.waitpid (w.clock + 1 + i) (os.fork w.clock))) = false) →
      vsshl_launch fuel os args w = .hang) := by
  refine ⟨?_, ?_, ?_⟩
  · intro hneg
    have h0 : os.fork w.clock ≠ 0 := by omega
    simp [vsshl_launch, World.emit, World.tick, perror, h0, hneg]
  · intro hpos n hn hnt ht
    have h0 : os.fork w.clock ≠ 0 := by omega
    have hn0 : ¬ os.fork w.clock < 0 := by omega
    have hw := wait_loop_spec os (os.fork w.clock) n fuel
      ((((w.emit (.call "vsshl_launch".toList args)).emit (.fork (os.fork w.clock)))).tick)
      hn (by simpa [World.emit, World.tick] using hnt) (by simpa [World.emit, World.tick] using ht)
    simp only [vsshl_launch, World.emit, World.tick] at hw ⊢
    simp only [h0, hn0, if_false]
    rw [hw]
    simp
  · intro hpos hnt
    have h0 : os.fork w.clock ≠ 0 := by omega
    have hn0 : ¬ os.fork w.clock < 0 := by omega
    have hw := wait_loop_hang os (os.fork w.clock) fuel
      ((((w.emit (.call "vsshl_launch".toList args)).emit (.fork (os.fork w.clock)))).tick)
      (by simpa [World.emit, World.tick] using hnt)
    simp only [vsshl_launch, World.emit, World.tick] at hw ⊢
    simp only [h0, hn0, if_false]
    rw [hw]

theorem launch_in_parent_witness :
    ["ls".toList, "-l".toList] ≠ [] ∧
    vsshl_launch 5 os_stopping ["ls".toList, "-l".toList] (world_of "") =
      .ret 1 { world_of "" with
        clock := 3,
        trace := [.call "vsshl_launch".toList ["ls".toList, "-l".toList], .fork 42,
          .waitpid 42 (.stopped 19), .waitpid 42 (.exited 3)] } ∧
    vsshl_launch 5 os_refusing ["ls".toList, "-l".toList] (world_of "") =
      .ret 1 { world_of "" with
        clock := 1,
        trace := [.call "vsshl_launch".toList ["ls".toList, "-l".toList], .fork (-1),
          .stderr "vsshl: error\n".toList] } :=
  ⟨by decide,
   (launch_in_parent 5 os_stopping ["ls".toList, "-l".toList] (world_of "") (by decide)).2.1
      (by decide) 1 (by decide) (by intro i hi; interval_cases i; decide) (by decide),
   (launch_in_parent 5 os_refusing ["ls".toList, "-l".toList] (world_of "") (by decide)).1
      (by decide)⟩

theorem launch_fork_failed (fuel : Nat) (os : OS) (args : List CStr) (w : World)
    (hneg : os.fork w.clock < 0) :
    vsshl_launch fuel os args w =
      .ret 1 { w with
        clock := w.clock + 1,
        trace := w.trace ++ [.call "vsshl_launch".toList args, .fork (os.fork w.clock),
          .stderr ("vsshl: ".toList ++ os.strerror (w.clock + 1) ++ ['\n'])] } := by
  have h0 : os.fork w.clock ≠ 0 := by omega
  simp [vsshl_launch, World.emit, World.tick, perror, h0, hneg]

theorem launch_child_ended (n : Nat) (os : OS) (args : List CStr) (w : World)
    (hpos : 0 < os.fork w.clock)
    (ht : (WIFEXITED (os.waitpid (w.clock + 1 + n) (os.fork w.clock)) ||
      WIFSIGNALED (os.waitpid (w.clock + 1 + n) (os.fork w.clock))) = true) :
    ∃ m, m ≤ n ∧ ∀ fuel, n < fuel → vsshl_launch fuel os args w =
      .ret 1 { w with
        clock := w.clock + 1 + (m + 1),
        trace := w.trace ++ [.call "vsshl_launch".toList args, .fork (os.fork w.clock)] ++
          (List.range (m + 1)).map
            (fun i => Event.waitpid (os.fork w.clock)
              (os.waitpid (w.clock + 1 + i) (os.fork w.clock))) } := by
  have h0 : os.fork w.clock ≠ 0 := by omega
  have hn0 : ¬ os.fork w.clock < 0 := by omega
  obtain ⟨m, hm, hw⟩ := wait_loop_returns os (os.fork w.clock) n
    ((((w.emit (.call "vsshl_launch".toList args)).emit (.fork (os.fork w.clock)))).tick)
    (by simpa [World.emit, World.tick] using ht)
  refine ⟨m, hm, ?_⟩
  intro fuel hn
  have hw := hw fuel hn
  simp only [vsshl_launch, World.emit, World.tick] at hw ⊢
  simp only [h0, hn0, if_false]
  rw [hw]
  simp

/-! ## Properties of the dispatcher -/

theorem execute_cons (fuel : Nat) (os : OS) (a0 : CStr) (rest : List CStr) (w : World) :
    vsshl_execute fuel os (a0 :: rest) w =
      if a0 = "cd".toList then vsshl_cd os (a0 :: rest) w
      else if a0 = "help".toList then vsshl_help os (a0 :: rest) w
      else if a0 = "exit".toList then vsshl_exit os (a0 :: rest) w
      else vsshl_launch fuel os (a0 :: rest) w := by
  simp [vsshl_execute, execute_scan, builtin_str, builtin_func]

theorem cd_returns_one (os : OS) (args : List CStr) (w : World) :
    ∃ w', vsshl_cd os args w = .ret 1 w' := by
  unfold vsshl_cd
  cases args[1]? with
  | none => exact ⟨_, rfl⟩
  | some dir =>
    simp only
    cases os.chdir (w.emit (.call "vsshl_cd".toList args)).clock
      (w.emit (.call "vsshl_cd".toList args)).cwd dir with
    | none => exact ⟨_, rfl⟩
    | some d => exact ⟨_, rfl⟩

theorem launch_ret_one (fuel : Nat) (os : OS) (args : List CStr) (w w' : World) (v : Int)
    (h : vsshl_launch fuel os args w = .ret v w') : v = 1 := by
  unfold vsshl_launch at h
  simp only at h
  split at h
  · split at h <;> simp at h
  · split at h
    · simp only [Outcome.ret.injEq] at h
      exact h.1.symm
    · split at h
      · simp only [Outcome.ret.injEq] at h
        exact h.1.symm
      all_goals simp at h

/-- C4: for every argument list `vsshl_execute` returns 0 exactly when the
first token is `exit`, whatever follows it; on the empty list, on `cd` and on
`help` it returns 1; on any other first token it is `vsshl_launch`, which
returns 1 in the parent when `fork` fails or once the child is seen exited or
killed, and whenever `vsshl_execute` returns on a first token other than
`exit` the value is 1. -/
theorem execute_terminates_only_on_exit (fuel : Nat) (os : OS) (args : List CStr) (w : World) :
    ((∃ w', vsshl_execute fuel os args w = .ret 0 w') ↔ args.head? = some "exit".toList) ∧
    (args.head? = some "exit".toList →
      vsshl_execute fuel os args w = .ret 0 (w.emit (.call "vsshl_exit".toList args))) ∧
    (args.head? ≠ some "exit".toList →
      ∀ v w', vsshl_execute fuel os args w = .ret v w' → v = 1) ∧
    (args = [] ∨ args.head? = some "cd".toList ∨ args.head? = some "help".toList →
      ∃ w', vsshl_execute fuel os args w = .ret 1 w') ∧
    (∀ a0, args.head? = some a0 → a0 ∉ builtin_str →
      vsshl_execute fuel os args w = vsshl_launch fuel os args w ∧
      ((os.fork w.clock < 0 ∨
        (0 < os.fork w.clock ∧ ∃ n, n < fuel ∧
          (WIFEXITED (os.waitpid (w.clock + 1 + n) (os.fork w.clock)) ||
            WIFSIGNALED (os.waitpid (w.clock + 1 + n) (os.fork w.clock))) = true)) →
        ∃ w', vsshl_execute fuel os args w = .ret 1 w')) := by
  have hexit : args.head? = some "exit".toList →
      vsshl_execute fuel os args w = .ret 0 (w.emit (.call "vsshl_exit".toList args)) := by
    intro h
    cases args with
    | nil => simp at h
    | cons a as =>
      simp only [List.head?_cons, Option.some.injEq] at h
      subst h
      rw [execute_cons]
      simp [vsshl_exit]
  have hother : args.head? ≠ some "exit".toList →
      ∀ v w', vsshl_execute fuel os args w = .ret v w' → v = 1 := by
    intro h v w' hr
    cases args with
    | nil =>
      simp only [vsshl_execute, Outcome.ret.injEq] at hr
      exact hr.1.symm
    | cons a as =>
      simp only [List.head?_cons, ne_eq, Option.some.injEq] at h
      rw [execute_cons] at hr
      split at hr
      · obtain ⟨w2, h2⟩ := cd_returns_one os (a :: as) w
        rw [h2] at hr
        simp only [Outcome.ret.injEq] at hr
        exact hr.1.symm
      · split at hr
        · simp only [vsshl_help, Outcome.ret.injEq] at hr
          exact hr.1.symm
        · exact launch_ret_one _ _ _ _ _ _ hr
  refine ⟨⟨?_, fun h => ⟨_, hexit h⟩⟩, hexit, hother, ?_, ?_⟩
  · rintro ⟨w', hw'⟩
    by_contra hne
    have := hother hne 0 w' hw'
    omega
  · rintro (h | h | h)
    · subst h; exact ⟨w, rfl⟩
    · cases args with
      | nil => simp at h
      | cons a as =>
        simp only [List.head?_cons, Option.some.injEq] at h
        subst h
        rw [execute_cons, if_pos rfl]
        exact cd_returns_one _ _ _
    · cases args with
      | nil => simp at h
      | cons a as =>
        simp only [List.head?_cons, Option.some.injEq] at h
        subst h
        rw [execute_cons]
        exact ⟨_, by simp [vsshl_help]; rfl⟩
  · intro a0 h0 hnb
    cases args with
    | nil => simp at h0
    | cons a as =>
      simp only [List.head?_cons, Option.some.injEq] at h0
      subst h0
      simp only [builtin_str, List.mem_cons, List.mem_singleton, List.not_mem_nil, or_false,
        not_or] at hnb
      have hl : vsshl_execute fuel os (a :: as) w = vsshl_launch fuel os (a :: as) w := by
        rw [execute_cons, if_neg hnb.1, if_neg hnb.2.1, if_neg hnb.2.2]
      refine ⟨hl, ?_⟩
      rw [hl]
      rintro (hneg | ⟨hpos, n, hn, ht⟩)
      · exact ⟨_, launch_fork_failed fuel os (a :: as) w hneg⟩
      · obtain ⟨m, _, hm⟩ := launch_child_ended n os (a :: as) w hpos ht
        exact ⟨_, hm fuel hn⟩

theorem execute_terminates_only_on_exit_witness :
    vsshl_execute 5 os_stopping ["exit".toList, "7".toList] (world_of "") =
      .ret 0 ((world_of "").emit
        (.call "vsshl_exit".toList ["exit".toList, "7".toList])) ∧
    (∃ w', vsshl_execute 5 os_stopping ["cd".toList, "/tmp".toList] (world_of "") = .ret 1 w') ∧
    (∃ w', vsshl_execute 5 os_stopping ["ls".toList] (world_of "") = .ret 1 w') :=
  ⟨(execute_terminates_only_on_exit 5 os_stopping _ (world_of "")).2.1 (by decide),
   (execute_terminates_only_on_exit 5 os_stopping _ (world_of "")).2.2.2.1
     (Or.inr (Or.inl (by decide))),
   ((execute_terminates_only_on_exit 5 os_stopping _ (world_of "")).2.2.2.2
     "ls".toList (by decide) (by decide)).2
     (Or.inr ⟨by decide, 1, by decide, by decide⟩)⟩

/-! ## Properties of the loop -/

set_option maxRecDepth 100000 in
/-- C8 (the code breaks it): the session of the two lines `echo` followed by
65 words, then `exit`, does not stop after the `exit` line.  In the first
iteration, after one prompt and before anything is dispatched, the tokenizer
stores outside its block (8-byte pointers) and the behaviour of the process
is undefined, with the `exit` line still unread.  On the session
`help`, ` exit` of the specification the loop does return after the second
line, with two prompts and the banner and the builtin names in order. -/
theorem loop_overruns_before_exit :
    vsshl_loop os_stopping 5
        { stdin := "echo ".toList ++ line_65 ++ "\nexit\n".toList, cwd := "/".toList,
          clock := 0, trace := [] } =
      .undefined { stdin := "exit\n".toList, cwd := "/".toList, clock := 0,
                   trace := [prompt] } ∧
    vsshl_loop os_stopping 5 (world_of "help\n exit\n") =
      .ret () { stdin := [], cwd := "/".toList, clock := 0,
                trace := [prompt, .call "vsshl_help".toList ["help".toList]] ++ help_output ++
                  [prompt, .call "vsshl_exit".toList ["exit".toList]] } ∧
    stdout_text ([prompt, .call "vsshl_help".toList ["help".toList]] ++ help_output ++
        [prompt, .call "vsshl_exit".toList ["exit".toList]]) =
      ("> Little shell: vsshl\nType program names and arguments, then hit enter\n" ++
       "The following commands are built in: \n cd\n help\n exit\n" ++
       "Use the man command for information of other programs\n> ").toList ∧
    prompts ([prompt, .call "vsshl_help".toList ["help".toList]] ++ help_output ++
        [prompt, .call "vsshl_exit".toList ["exit".toList]]) = 2 := by
  decide

end Vsshl
